import Mathlib

/-!
Shallow embedding of the owl-style reactivity engine (reactivity source file of
the repository) together with proofs about its subscription registry, proxy
trap handlers, wrapper factory and batching combinator.

JS `Map`s are modelled as insertion-ordered association lists (`alookup`,
`aset`, `adel`), JS `Set`s as insertion-ordered duplicate-free lists (`sadd`,
`sdel`).  Stateful code is embedded by explicit state passing; code that can
throw returns `Except String`.
-/

namespace Owl

/-- JS `Map.prototype.get`: first binding for the key, if any. -/
def alookup {α β : Type} [DecidableEq α] : List (α × β) → α → Option β
  | [], _ => none
  | (a, b) :: rest, x => if a = x then some b else alookup rest x

/-- JS `Map.prototype.set`: overwrite in place (keeping the key's position) when
the key is present, append a fresh binding otherwise. -/
def aset {α β : Type} [DecidableEq α] : List (α × β) → α → β → List (α × β)
  | [], x, v => [(x, v)]
  | (a, b) :: rest, x, v => if a = x then (x, v) :: rest else (a, b) :: aset rest x v

/-- JS `Map.prototype.delete`: remove every binding for the key. -/
def adel {α β : Type} [DecidableEq α] (l : List (α × β)) (x : α) : List (α × β) :=
  l.filter (fun p => p.1 ≠ x)

/-- JS `Set.prototype.add`: append when absent, no-op when present. -/
def sadd {α : Type} [DecidableEq α] (l : List α) (x : α) : List α :=
  if x ∈ l then l else l ++ [x]

/-- JS `Set.prototype.delete`: remove the element, keeping the others in order. -/
def sdel {α : Type} [DecidableEq α] (l : List α) (x : α) : List α :=
  l.filter (fun y => y ≠ x)

theorem alookup_aset {α β : Type} [DecidableEq α] (l : List (α × β)) (a : α) (v : β) (x : α) :
    alookup (aset l a v) x = if x = a then some v else alookup l x := by
  induction l with
  | nil =>
    by_cases h : x = a
    · simp [aset, alookup, h]
    · simp [aset, alookup, h, show ¬ a = x from fun hh => h hh.symm]
  | cons p rest ih =>
    obtain ⟨pa, pb⟩ := p
    by_cases hpa : pa = a
    · subst hpa
      by_cases hx : x = pa
      · subst hx; simp [aset, alookup]
      · simp [aset, alookup, hx, show ¬ pa = x from fun hh => hx hh.symm]
    · by_cases hpx : pa = x
      · have hxa : ¬ x = a := fun hh => hpa (hpx.trans hh)
        simp [aset, alookup, hpa, hpx, hxa]
      · by_cases hx : x = a
        · subst hx
          simp [aset, alookup, hpa, hpx, ih]
        · simp [aset, alookup, hpa, hpx, ih, hx]

theorem alookup_adel {α β : Type} [DecidableEq α] (l : List (α × β)) (a x : α) :
    alookup (adel l a) x = if x = a then none else alookup l x := by
  induction l with
  | nil =>
    by_cases h : x = a <;> simp [adel, alookup, h]
  | cons p rest ih =>
    obtain ⟨pa, pb⟩ := p
    by_cases hpa : pa = a
    · have hstep : adel ((pa, pb) :: rest) a = adel rest a := by
        simp [adel, hpa]
      rw [hstep, ih]
      by_cases hx : x = a
      · simp [hx]
      · have hpx : ¬ pa = x := fun hh => hx (hh.symm.trans hpa)
        simp [hx, alookup, hpx]
    · have hstep : adel ((pa, pb) :: rest) a = (pa, pb) :: adel rest a := by
        simp [adel, hpa]
      rw [hstep]
      by_cases hpx : pa = x
      · have hxa : ¬ x = a := fun hh => hpa (hpx.trans hh)
        simp [alookup, hpx, hxa]
      · simp [alookup, hpx, ih]

theorem mem_sadd {α : Type} [DecidableEq α] (l : List α) (x y : α) :
    y ∈ sadd l x ↔ y ∈ l ∨ y = x := by
  by_cases h : x ∈ l
  · simp only [sadd, if_pos h]
    constructor
    · exact Or.inl
    · rintro (hy | rfl)
      · exact hy
      · exact h
  · simp [sadd, if_neg h]

theorem mem_sdel {α : Type} [DecidableEq α] (l : List α) (x y : α) :
    y ∈ sdel l x ↔ y ∈ l ∧ y ≠ x := by
  simp [sdel]

theorem sdel_sdel {α : Type} [DecidableEq α] (l : List α) (x : α) :
    sdel (sdel l x) x = sdel l x := by
  simp [sdel, List.filter_filter]

theorem nodup_sadd {α : Type} [DecidableEq α] (l : List α) (x : α) (h : l.Nodup) :
    (sadd l x).Nodup := by
  by_cases hx : x ∈ l
  · simpa [sadd, hx] using h
  · have happ : (l ++ [x]).Nodup :=
      List.Nodup.append h (List.nodup_singleton x)
        (by simpa [List.disjoint_singleton] using hx)
    simpa [sadd, hx] using happ

theorem mem_aset {α β : Type} [DecidableEq α] (l : List (α × β)) (a : α) (v : β)
    (p : α × β) : p ∈ aset l a v → p = (a, v) ∨ p ∈ l := by
  induction l with
  | nil => intro h; simpa [aset] using h
  | cons q rest ih =>
    obtain ⟨qa, qb⟩ := q
    intro h
    by_cases hq : qa = a
    · simp only [aset, if_pos hq] at h
      rcases List.mem_cons.mp h with h | h
      · exact Or.inl h
      · exact Or.inr (List.mem_cons_of_mem _ h)
    · simp only [aset, if_neg hq] at h
      rcases List.mem_cons.mp h with h | h
      · exact Or.inr (by simp [h])
      · rcases ih h with h2 | h2
        · exact Or.inl h2
        · exact Or.inr (List.mem_cons_of_mem _ h2)

/-!
## Subscription registry

Embedding of `targetToKeysToCallbacks` / `callbacksToTargets` and of
`observeTargetKey`, `clearReactivesForCallback` and `notifyReactives`.
Targets and callbacks are identified by `Nat`; a registry field key is either
the `KEYCHANGES` sentinel or an ordinary key.
-/

/-- A registry field key: the `Symbol("Key changes")` sentinel or an ordinary
key identified by a `Nat`. -/
inductive RegKey : Type where
  | keychanges : RegKey
  | nk : Nat → RegKey
deriving DecidableEq, Repr

/-- The two process-wide weak maps of the registry:
`targetToKeysToCallbacks : target → (key → set of callbacks)` and
`callbacksToTargets : callback → set of targets`. -/
structure RegState : Type where
  tkc : List (Nat × List (RegKey × List Nat))
  ctt : List (Nat × List Nat)
deriving DecidableEq, Repr

def RegState.empty : RegState := ⟨[], []⟩

/-- Callbacks currently subscribed to `(t, k)` (empty when either map lacks
the entry), in registration order. -/
def subs (s : RegState) (t : Nat) (k : RegKey) : List Nat :=
  (alookup ((alookup s.tkc t).getD []) k).getD []

/-- Targets currently recorded for a callback in `callbacksToTargets`. -/
def targetsOf (s : RegState) (cb : Nat) : List Nat :=
  (alookup s.ctt cb).getD []

/-- `observeTargetKey(target, key, callback)`: idempotently record interest in
`(target, key)` and record `target` in the reverse index of `callback`. -/
def observeTargetKey (t : Nat) (k : RegKey) (cb : Nat) (s : RegState) : RegState :=
  let ktc := (alookup s.tkc t).getD []
  let cbs := (alookup ktc k).getD []
  let tgts := (alookup s.ctt cb).getD []
  { tkc := aset s.tkc t (aset ktc k (sadd cbs cb))
    ctt := aset s.ctt cb (sadd tgts t) }

/-- One step of the loop in `clearReactivesForCallback`: delete `cb` from every
callback set of one target (the key entries themselves are kept, possibly
empty, as in the source). -/
def clearTarget (cb : Nat) (tkc : List (Nat × List (RegKey × List Nat))) (t : Nat) :
    List (Nat × List (RegKey × List Nat)) :=
  match alookup tkc t with
  | none => tkc
  | some ktc => aset tkc t (ktc.map (fun p => (p.1, sdel p.2 cb)))

/-- `clearReactivesForCallback(callback)`: remove every subscription of the
callback (across all targets and keys it touches) and empty its reverse-index
entry. -/
def clearReactivesForCallback (cb : Nat) (s : RegState) : RegState :=
  match alookup s.ctt cb with
  | none => s
  | some tgts => ⟨tgts.foldl (clearTarget cb) s.tkc, aset s.ctt cb []⟩

/-- The loop body of `notifyReactives`: for each callback of the snapshot, in
order, first `clearReactivesForCallback(callback)`, then `callback()` (whose
registry side effect is the parameter `effect`).  The second component is the
instrumentation: the list of invoked callbacks paired with the registry state
in which each one was invoked (right after its clearing step). -/
def notifyLoop (effect : Nat → RegState → RegState) :
    List Nat → RegState → RegState × List (Nat × RegState)
  | [], s => (s, [])
  | cb :: rest, s =>
    let s1 := clearReactivesForCallback cb s
    let s2 := effect cb s1
    let r := notifyLoop effect rest s2
    (r.1, (cb, s1) :: r.2)

/-- `notifyReactives(target, key)`: look up the callbacks subscribed to
`(target, key)`; the loop iterates over a copy (`[...callbacks]`), which here
is the immutable list read from the state at call time. -/
def notifyReactives (effect : Nat → RegState → RegState) (t : Nat) (k : RegKey)
    (s : RegState) : RegState × List (Nat × RegState) :=
  match alookup s.tkc t with
  | none => (s, [])
  | some ktc =>
    match alookup ktc k with
    | none => (s, [])
    | some callbacks => notifyLoop effect callbacks s

/-- A callback whose own registry side effect is a sequence of
`observeTargetKey` calls on itself (a subscriber re-reading data through its
views when invoked). -/
def obsEffect (obs : Nat → List (Nat × RegKey)) (cb : Nat) (s : RegState) : RegState :=
  (obs cb).foldl (fun st p => observeTargetKey p.1 p.2 cb st) s

/-- The co-index property tying the two registry maps together: every recorded
subscription of a callback is reachable from its reverse-index entry. -/
def coIndex (s : RegState) : Prop :=
  ∀ t k cb, cb ∈ subs s t k → t ∈ targetsOf s cb

/-- A callback with no registry entry at all: it belongs to no callback set
and its reverse index is empty. -/
def noEntriesFor (cb : Nat) (s : RegState) : Prop :=
  (∀ t k, cb ∉ subs s t k) ∧ targetsOf s cb = []

theorem alookup_mapval {α β γ : Type} [DecidableEq α] (f : β → γ) (l : List (α × β)) (x : α) :
    alookup (l.map (fun p => (p.1, f p.2))) x = (alookup l x).map f := by
  induction l with
  | nil => simp [alookup]
  | cons p rest ih =>
    by_cases h : p.1 = x <;> simp [alookup, h, ih]

theorem subs_observe (t : Nat) (k : RegKey) (cb : Nat) (s : RegState) (t2 : Nat) (k2 : RegKey) :
    subs (observeTargetKey t k cb s) t2 k2 =
      if t2 = t ∧ k2 = k then sadd (subs s t k) cb else subs s t2 k2 := by
  unfold observeTargetKey subs
  simp only [alookup_aset]
  by_cases ht : t2 = t
  · subst ht
    by_cases hk : k2 = k
    · subst hk; simp [alookup_aset]
    · simp [alookup_aset, hk]
  · simp [ht]

theorem targetsOf_observe (t : Nat) (k : RegKey) (cb : Nat) (s : RegState) (cb2 : Nat) :
    targetsOf (observeTargetKey t k cb s) cb2 =
      if cb2 = cb then sadd (targetsOf s cb) t else targetsOf s cb2 := by
  unfold observeTargetKey targetsOf
  simp only [alookup_aset]
  by_cases h : cb2 = cb <;> simp [h]

/-- Field keys and callback sets kept under one target-to-keys map. -/
def subsT (tkc : List (Nat × List (RegKey × List Nat))) (t : Nat) (k : RegKey) : List Nat :=
  (alookup ((alookup tkc t).getD []) k).getD []

theorem subs_eq_subsT (s : RegState) (t : Nat) (k : RegKey) : subs s t k = subsT s.tkc t k := rfl

theorem subsT_clearTarget (cb : Nat) (tkc : List (Nat × List (RegKey × List Nat)))
    (t0 t : Nat) (k : RegKey) :
    subsT (clearTarget cb tkc t0) t k =
      if t = t0 then sdel (subsT tkc t k) cb else subsT tkc t k := by
  by_cases ht : t = t0
  · subst ht
    unfold clearTarget subsT
    cases hl : alookup tkc t with
    | none => simp [hl, alookup, sdel]
    | some ktc =>
      have h2 : alookup (ktc.map (fun p => (p.1, sdel p.2 cb))) k =
          (alookup ktc k).map (fun l => sdel l cb) := by
        simpa using alookup_mapval (fun l => sdel l cb) ktc k
      simp only [alookup_aset, hl, eq_self_iff_true, if_true, Option.getD_some, h2]
      cases alookup ktc k <;> simp [sdel]
  · unfold clearTarget subsT
    cases hl : alookup tkc t0 with
    | none => simp [ht]
    | some ktc => simp [alookup_aset, ht]

theorem subsT_foldl_clear (cb : Nat) (tgts : List Nat)
    (tkc : List (Nat × List (RegKey × List Nat))) (t : Nat) (k : RegKey) :
    subsT (tgts.foldl (clearTarget cb) tkc) t k =
      if t ∈ tgts then sdel (subsT tkc t k) cb else subsT tkc t k := by
  induction tgts generalizing tkc with
  | nil => simp
  | cons t0 rest ih =>
    simp only [List.foldl_cons]
    rw [ih, subsT_clearTarget]
    by_cases ht : t = t0
    · subst ht
      by_cases hr : t ∈ rest <;> simp [hr, sdel_sdel]
    · by_cases hr : t ∈ rest <;> simp [hr, ht]

theorem subs_clear (cb : Nat) (s : RegState) (t : Nat) (k : RegKey) :
    subs (clearReactivesForCallback cb s) t k =
      if t ∈ targetsOf s cb then sdel (subs s t k) cb else subs s t k := by
  unfold clearReactivesForCallback targetsOf
  cases hl : alookup s.ctt cb with
  | none => simp
  | some tgts =>
    simp only [Option.getD_some]
    rw [subs_eq_subsT, subs_eq_subsT]
    exact subsT_foldl_clear cb tgts s.tkc t k

theorem targetsOf_clear (cb : Nat) (s : RegState) (cb2 : Nat) :
    targetsOf (clearReactivesForCallback cb s) cb2 =
      if cb2 = cb then [] else targetsOf s cb2 := by
  unfold clearReactivesForCallback
  cases hl : alookup s.ctt cb with
  | none =>
    by_cases h : cb2 = cb
    · subst h; simp [targetsOf, hl]
    · simp [h]
  | some tgts =>
    by_cases h : cb2 = cb
    · subst h; simp [targetsOf, alookup_aset]
    · simp [targetsOf, alookup_aset, h]

/-- Per-callback clearing: `clearReactivesForCallback cb` never changes the
membership of any other callback, anywhere in the registry. -/
theorem clear_preserves_other (cb cb2 : Nat) (s : RegState) (t : Nat) (k : RegKey)
    (h : cb2 ≠ cb) :
    cb2 ∈ subs (clearReactivesForCallback cb s) t k ↔ cb2 ∈ subs s t k := by
  rw [subs_clear]
  by_cases ht : t ∈ targetsOf s cb <;> simp [ht, mem_sdel, h]

/-- With the co-index property, clearing removes every subscription of the
callback. -/
theorem clear_removes (cb : Nat) (s : RegState) (hco : coIndex s) (t : Nat) (k : RegKey) :
    cb ∉ subs (clearReactivesForCallback cb s) t k := by
  rw [subs_clear]
  by_cases ht : t ∈ targetsOf s cb
  · simp [ht, mem_sdel]
  · simp only [if_neg ht]
    intro hmem
    exact ht (hco t k cb hmem)

theorem noEntriesFor_clear (cb : Nat) (s : RegState) (hco : coIndex s) :
    noEntriesFor cb (clearReactivesForCallback cb s) := by
  constructor
  · intro t k
    exact clear_removes cb s hco t k
  · rw [targetsOf_clear]
    simp

theorem coIndex_empty : coIndex RegState.empty := by
  intro t k cb h
  simp [subs, RegState.empty, alookup] at h

theorem coIndex_observe (t : Nat) (k : RegKey) (cb : Nat) (s : RegState)
    (hco : coIndex s) : coIndex (observeTargetKey t k cb s) := by
  intro t2 k2 cb2 h
  rw [subs_observe] at h
  rw [targetsOf_observe]
  by_cases htk : t2 = t ∧ k2 = k
  · rw [if_pos htk] at h
    rcases (mem_sadd _ _ _).mp h with hold | rfl
    · obtain ⟨ht2, hk2⟩ := htk
      subst ht2; subst hk2
      have := hco t2 k2 cb2 hold
      by_cases hc : cb2 = cb
      · subst hc; simp [(mem_sadd _ _ _).mpr (Or.inl this)]
      · simp [hc, this]
    · obtain ⟨ht2, _⟩ := htk
      subst ht2
      simp [(mem_sadd _ _ _).mpr (Or.inr rfl)]
  · rw [if_neg htk] at h
    have := hco t2 k2 cb2 h
    by_cases hc : cb2 = cb
    · subst hc; simp [(mem_sadd _ _ _).mpr (Or.inl this)]
    · simp [hc, this]

theorem coIndex_clear (cb : Nat) (s : RegState) (hco : coIndex s) :
    coIndex (clearReactivesForCallback cb s) := by
  intro t k cb2 h
  by_cases hc : cb2 = cb
  · subst hc
    exact absurd h (clear_removes cb2 s hco t k)
  · rw [clear_preserves_other cb cb2 s t k hc] at h
    rw [targetsOf_clear, if_neg hc]
    exact hco t k cb2 h

theorem subs_observe_mono (a : Nat) (b : RegKey) (c : Nat) (s : RegState)
    (cb : Nat) (t : Nat) (k : RegKey) (h : cb ∈ subs s t k) :
    cb ∈ subs (observeTargetKey a b c s) t k := by
  rw [subs_observe]
  by_cases htk : t = a ∧ k = b
  · rw [if_pos htk]
    obtain ⟨rfl, rfl⟩ := htk
    exact (mem_sadd _ _ _).mpr (Or.inl h)
  · rwa [if_neg htk]

theorem foldl_observe_mono (c : Nat) (l : List (Nat × RegKey)) (cb : Nat) (t : Nat)
    (k : RegKey) :
    ∀ s : RegState, cb ∈ subs s t k →
      cb ∈ subs (l.foldl (fun st p => observeTargetKey p.1 p.2 c st) s) t k := by
  induction l with
  | nil => intro s h; simpa using h
  | cons p rest ih =>
    intro s h
    simp only [List.foldl_cons]
    exact ih _ (subs_observe_mono p.1 p.2 c s cb t k h)

theorem obsEffect_mono (obs : Nat → List (Nat × RegKey)) (c : Nat) (s : RegState)
    (cb : Nat) (t : Nat) (k : RegKey) (h : cb ∈ subs s t k) :
    cb ∈ subs (obsEffect obs c s) t k :=
  foldl_observe_mono c (obs c) cb t k s h

theorem obsEffect_self (obs : Nat → List (Nat × RegKey)) (cb : Nat) (s : RegState)
    (t : Nat) (k : RegKey) (h : (t, k) ∈ obs cb) :
    cb ∈ subs (obsEffect obs cb s) t k := by
  unfold obsEffect
  revert h
  generalize obs cb = l
  intro h
  induction l generalizing s with
  | nil => simp at h
  | cons p rest ih =>
    simp only [List.foldl_cons]
    rcases List.mem_cons.mp h with rfl | hmem
    · -- established by this observe, preserved by the rest of the fold
      have hbase : cb ∈ subs (observeTargetKey t k cb s) t k := by
        rw [subs_observe]
        simp [(mem_sadd _ _ _).mpr (Or.inr rfl)]
      exact foldl_observe_mono cb rest cb t k _ hbase
    · exact ih _ hmem

theorem coIndex_obsEffect (obs : Nat → List (Nat × RegKey)) (c : Nat) (s : RegState)
    (hco : coIndex s) : coIndex (obsEffect obs c s) := by
  unfold obsEffect
  generalize obs c = l
  induction l generalizing s with
  | nil => simpa using hco
  | cons p rest ih =>
    simp only [List.foldl_cons]
    exact ih _ (coIndex_observe p.1 p.2 c s hco)

theorem notifyReactives_eq_loop (effect : Nat → RegState → RegState) (t : Nat)
    (k : RegKey) (s : RegState) :
    notifyReactives effect t k s = notifyLoop effect (subs s t k) s := by
  unfold notifyReactives subs
  cases ht : alookup s.tkc t with
  | none => simp [ht, alookup, notifyLoop]
  | some ktc =>
    cases hk : alookup ktc k with
    | none => simp [ht, hk, notifyLoop]
    | some callbacks => simp [ht, hk]

theorem notifyLoop_fsts (effect : Nat → RegState → RegState) (l : List Nat) :
    ∀ s : RegState, ((notifyLoop effect l s).2.map Prod.fst) = l := by
  induction l with
  | nil => intro s; simp [notifyLoop]
  | cons cb rest ih =>
    intro s
    simp [notifyLoop, ih]

theorem notifyLoop_clears (obs : Nat → List (Nat × RegKey)) (l : List Nat) :
    ∀ s : RegState, coIndex s →
      ∀ p ∈ (notifyLoop (obsEffect obs) l s).2, noEntriesFor p.1 p.2 := by
  induction l with
  | nil => intro s _ p hp; simp [notifyLoop] at hp
  | cons cb rest ih =>
    intro s hco p hp
    simp only [notifyLoop, List.mem_cons] at hp
    rcases hp with rfl | hp
    · exact noEntriesFor_clear cb s hco
    · exact ih _ (coIndex_obsEffect obs cb _ (coIndex_clear cb s hco)) p hp

theorem notifyLoop_preserves (obs : Nat → List (Nat × RegKey)) (cb : Nat) (t2 : Nat)
    (k2 : RegKey) (l : List Nat) (hl : cb ∉ l) :
    ∀ s : RegState, cb ∈ subs s t2 k2 →
      cb ∈ subs (notifyLoop (obsEffect obs) l s).1 t2 k2 := by
  induction l with
  | nil => intro s h; simpa [notifyLoop] using h
  | cons c rest ih =>
    intro s h
    have hc : cb ≠ c := fun hh => hl (hh ▸ List.mem_cons_self c rest)
    have hrest : cb ∉ rest := fun hh => hl (List.mem_cons_of_mem c hh)
    simp only [notifyLoop]
    refine ih hrest _ ?_
    exact obsEffect_mono obs c _ cb t2 k2
      ((clear_preserves_other c cb s t2 k2 hc).mpr h)

theorem notifyLoop_establishes (obs : Nat → List (Nat × RegKey)) (cb : Nat) (t2 : Nat)
    (k2 : RegKey) (l : List Nat) (hnd : l.Nodup) (hmem : cb ∈ l)
    (hobs : (t2, k2) ∈ obs cb) :
    ∀ s : RegState, cb ∈ subs (notifyLoop (obsEffect obs) l s).1 t2 k2 := by
  induction l with
  | nil => cases hmem
  | cons c rest ih =>
    intro s
    simp only [notifyLoop]
    rcases List.mem_cons.mp hmem with rfl | hmem2
    · have hrest : cb ∉ rest := (List.nodup_cons.mp hnd).1
      refine notifyLoop_preserves obs cb t2 k2 rest hrest _ ?_
      exact obsEffect_self obs cb _ t2 k2 hobs
    · exact ih (List.nodup_cons.mp hnd).2 hmem2 _

theorem notifyLoop_id_other (cb2 : Nat) (t2 : Nat) (k2 : RegKey) (l : List Nat)
    (hl : cb2 ∉ l) :
    ∀ s : RegState,
      (cb2 ∈ subs (notifyLoop (fun _ st => st) l s).1 t2 k2 ↔ cb2 ∈ subs s t2 k2) := by
  induction l with
  | nil => intro s; simp [notifyLoop]
  | cons c rest ih =>
    intro s
    have hc : cb2 ≠ c := fun hh => hl (hh ▸ List.mem_cons_self c rest)
    have hrest : cb2 ∉ rest := fun hh => hl (List.mem_cons_of_mem c hh)
    simp only [notifyLoop]
    rw [ih hrest]
    exact clear_preserves_other c cb2 s t2 k2 hc

/-- C1: `notify(t, k)` iterates over the snapshot of callbacks subscribed to
`(t, k)` at call time, in registration order (part 1, for an arbitrary
callback side effect); before each callback runs, every registry entry of that
callback, across all targets and keys, has been removed (part 2, the state in
the instrumentation trace is the state the callback is invoked in); and a
subscription the callback re-establishes during its own execution survives to
the end of the notify call (part 3). -/
theorem notify_snapshot_clear_then_invoke (t : Nat) (k : RegKey) (s : RegState)
    (hco : coIndex s) (hnd : (subs s t k).Nodup) :
    (∀ effect, ((notifyReactives effect t k s).2.map Prod.fst) = subs s t k) ∧
    (∀ obs : Nat → List (Nat × RegKey),
      ∀ p ∈ (notifyReactives (obsEffect obs) t k s).2, noEntriesFor p.1 p.2) ∧
    (∀ (obs : Nat → List (Nat × RegKey)) (cb t2 : Nat) (k2 : RegKey),
      cb ∈ subs s t k → (t2, k2) ∈ obs cb →
      cb ∈ subs (notifyReactives (obsEffect obs) t k s).1 t2 k2) := by
  refine ⟨?_, ?_, ?_⟩
  · intro effect
    rw [notifyReactives_eq_loop]
    exact notifyLoop_fsts effect (subs s t k) s
  · intro obs p hp
    rw [notifyReactives_eq_loop] at hp
    exact notifyLoop_clears obs (subs s t k) s hco p hp
  · intro obs cb t2 k2 hmem hobs
    rw [notifyReactives_eq_loop]
    exact notifyLoop_establishes obs cb t2 k2 (subs s t k) hnd hmem hobs s

/-- Witness for C1 at a concrete registry: callbacks 11 and 10 subscribed to
target 1, key 0; callback 10 re-subscribes to target 2, key 5 while being
notified, and that subscription is present when the notify call is over. -/
theorem notify_snapshot_clear_then_invoke_witness :
    10 ∈ subs (notifyReactives (obsEffect (fun _ => [(2, RegKey.nk 5)])) 1 (RegKey.nk 0)
      (observeTargetKey 1 (RegKey.nk 0) 10
        (observeTargetKey 1 (RegKey.nk 0) 11 RegState.empty))).1 2 (RegKey.nk 5) := by
  have h := notify_snapshot_clear_then_invoke 1 (RegKey.nk 0)
    (observeTargetKey 1 (RegKey.nk 0) 10 (observeTargetKey 1 (RegKey.nk 0) 11 RegState.empty))
    (coIndex_observe 1 (RegKey.nk 0) 10 _
      (coIndex_observe 1 (RegKey.nk 0) 11 _ coIndex_empty))
    (by decide)
  exact h.2.2 (fun _ => [(2, RegKey.nk 5)]) 10 2 (RegKey.nk 5) (by decide) (by decide)

/-- C10: clearing is strictly per-callback.  `clearReactivesForCallback cb`
leaves the membership of every other callback unchanged at every target and
key; and a `notifyReactives` call (here with callbacks whose own registry side
effect is nil) leaves every callback not in the notified set untouched. -/
theorem clearing_strictly_per_callback :
    (∀ (s : RegState) (cb cb2 t : Nat) (k : RegKey), cb2 ≠ cb →
      (cb2 ∈ subs (clearReactivesForCallback cb s) t k ↔ cb2 ∈ subs s t k)) ∧
    (∀ (s : RegState) (t : Nat) (k : RegKey) (t2 : Nat) (k2 : RegKey) (cb2 : Nat),
      cb2 ∉ subs s t k →
      (cb2 ∈ subs (notifyReactives (fun _ st => st) t k s).1 t2 k2 ↔
        cb2 ∈ subs s t2 k2)) := by
  refine ⟨?_, ?_⟩
  · intro s cb cb2 t k h
    exact clear_preserves_other cb cb2 s t k h
  · intro s t k t2 k2 cb2 h
    rw [notifyReactives_eq_loop]
    exact notifyLoop_id_other cb2 t2 k2 (subs s t k) h s

/-- Witness for C10: callback 10 subscribed to (1, key 0), callback 11
subscribed to (2, key 1); clearing or notifying 10 leaves 11 subscribed. -/
theorem clearing_strictly_per_callback_witness :
    (11 ∈ subs (clearReactivesForCallback 10
        (observeTargetKey 2 (RegKey.nk 1) 11
          (observeTargetKey 1 (RegKey.nk 0) 10 RegState.empty))) 2 (RegKey.nk 1) ↔
      11 ∈ subs (observeTargetKey 2 (RegKey.nk 1) 11
          (observeTargetKey 1 (RegKey.nk 0) 10 RegState.empty)) 2 (RegKey.nk 1)) ∧
    (11 ∈ subs (notifyReactives (fun _ st => st) 1 (RegKey.nk 0)
        (observeTargetKey 2 (RegKey.nk 1) 11
          (observeTargetKey 1 (RegKey.nk 0) 10 RegState.empty))).1 2 (RegKey.nk 1) ↔
      11 ∈ subs (observeTargetKey 2 (RegKey.nk 1) 11
          (observeTargetKey 1 (RegKey.nk 0) 10 RegState.empty)) 2 (RegKey.nk 1)) :=
  ⟨clearing_strictly_per_callback.1 _ 10 11 2 (RegKey.nk 1) (by decide),
   clearing_strictly_per_callback.2 _ 1 (RegKey.nk 0) 2 (RegKey.nk 1) 11 (by decide)⟩

/-!
## JS values, `rawType`, `canBeMadeReactive`, `toRaw`

A JS value is `undefined`, `null`, a non-object primitive, a function, a raw
container (identified by a `Nat`, with its `rawType` given by an environment
`κ : Nat → RawKind`), or a reactive proxy (`view`), which carries its
allocation identity `pid`, its underlying target and its callback. -/

/-- The "RawType" extracted from `Object.prototype.toString`, restricted to
the kinds the probe distinguishes. -/
inductive RawKind : Type where
  | object | array | set | map | weakmap
  | date | promise | nullk | other
deriving DecidableEq, Repr

inductive Value : Type where
  | undefined : Value
  | nil : Value
  | bool : Bool → Value
  | prim : Nat → Value
  | fn : Nat → Value
  | raw : Nat → Value
  | view : Nat → Nat → Nat → Value
deriving DecidableEq, Repr

/-- `typeof value === "object"` (true for `null`, raw containers and
proxies; false for undefined, booleans, other primitives and functions). -/
def typeofIsObject : Value → Bool
  | .nil => true
  | .raw _ => true
  | .view _ _ _ => true
  | _ => false

/-- `rawType(obj)`: `Object.prototype.toString` is transparent through the
proxy, so a view reports its target's kind. -/
def rawTypeV (κ : Nat → RawKind) : Value → RawKind
  | .nil => .nullk
  | .raw id => κ id
  | .view _ t _ => κ t
  | _ => .other

/-- `SUPPORTED_RAW_TYPES`. -/
def SUPPORTED_RAW_TYPES : List RawKind := [.object, .array, .set, .map, .weakmap]

/-- `canBeMadeReactive(value)`. -/
def canBeMadeReactive (κ : Nat → RawKind) (v : Value) : Bool :=
  typeofIsObject v && decide (rawTypeV κ v ∈ SUPPORTED_RAW_TYPES)

/-- `toRaw(value)`: `value[TARGET] || value`.  The member access faults with a
TypeError on `null` and `undefined`; on a view the `get` trap answers the
`TARGET` sentinel with the underlying target; any other value lacks the
`TARGET` property and is returned unchanged. -/
def toRaw : Value → Except String Value
  | .undefined => .error "TypeError"
  | .nil => .error "TypeError"
  | .view _ t _ => .ok (.raw t)
  | v => .ok v

/-!
## Wrapper factory (`reactive`) with its cache

`reactiveCache` maps a target id to an association of callbacks to proxies;
proxies are identified by allocation order (`nextPid`).  `markRaw` sets the
`SKIP` flag.  The registry is part of the state because `SKIP in target`, when
`target` is itself a proxy, goes through the `has` trap, which observes
`(underlying target, KEYCHANGES)` for the proxy's own callback. -/

structure WrapState : Type where
  skipped : List Nat
  cache : List (Nat × List (Nat × Nat))
  nextPid : Nat
  reg : RegState
deriving DecidableEq, Repr

def WrapState.empty : WrapState := ⟨[], [], 0, RegState.empty⟩

/-- `markRaw(value)`: set the `SKIP` flag on the value. -/
def markRaw (s : WrapState) (x : Nat) : WrapState :=
  { s with skipped := sadd s.skipped x }

/-- A rank making the one recursive call of `reactive` (a view redirecting to
its underlying target) terminating. -/
def vrank : Value → Nat
  | .view _ _ _ => 1
  | _ => 0

/-- `reactive(target, callback)`.
* values failing `canBeMadeReactive` throw;
* `SKIP in target` returns the target unchanged (for a view this check runs
  the `has` trap, which first observes `(target, KEYCHANGES)` for the view's
  own callback);
* a view (truthy `target[TARGET]`) redirects to its underlying raw target;
* otherwise the `(target, callback)` cache entry is returned, a proxy being
  allocated on the first call. -/
def reactive (κ : Nat → RawKind) (s : WrapState) (v : Value) (cb : Nat) :
    Except String (Value × WrapState) :=
  if canBeMadeReactive κ v = false then
    .error "Cannot make the given value reactive"
  else
    match v with
    | .raw id =>
      if id ∈ s.skipped then .ok (.raw id, s)
      else
        match alookup ((alookup s.cache id).getD []) cb with
        | some pid => .ok (.view pid id cb, s)
        | none =>
          let pid := s.nextPid
          .ok (.view pid id cb,
            { s with
              cache := aset s.cache id (aset ((alookup s.cache id).getD []) cb pid)
              nextPid := pid + 1 })
    | .view pid t cb0 =>
      let s1 := { s with reg := observeTargetKey t RegKey.keychanges cb0 s.reg }
      if t ∈ s.skipped then .ok (.view pid t cb0, s1)
      else reactive κ s1 (.raw t) cb
    | _ => .error "Cannot make the given value reactive"
termination_by vrank v
decreasing_by simp [vrank]

/-- Behaviour of `reactive` on a wrappable, non-skipped raw target: it answers
with the cached proxy for `(target, callback)`, allocating it on first use,
and touches neither the skip flags nor the registry. -/
theorem reactive_raw_spec (κ : Nat → RawKind) (s : WrapState) (x cb : Nat)
    (hcan : canBeMadeReactive κ (.raw x) = true) (hskip : x ∉ s.skipped) :
    ∃ pid s2, reactive κ s (.raw x) cb = .ok (.view pid x cb, s2) ∧
      s2.skipped = s.skipped ∧ s2.reg = s.reg ∧
      alookup ((alookup s2.cache x).getD []) cb = some pid := by
  cases hc : alookup ((alookup s.cache x).getD []) cb with
  | some pid =>
    refine ⟨pid, s, ?_, rfl, rfl, hc⟩
    unfold reactive
    simp [hcan, hskip, hc]
  | none =>
    refine ⟨s.nextPid,
      { s with cache := aset s.cache x (aset ((alookup s.cache x).getD []) cb s.nextPid)
               nextPid := s.nextPid + 1 }, ?_, rfl, rfl, ?_⟩
    · unfold reactive
      simp [hcan, hskip, hc]
    · simp [alookup_aset]

/-- C6: the wrapper factory is memoized per `(rawValue, onChange)` pair: for a
wrappable, non-skipped raw target, a repeated `reactive` call with the same
callback returns the identical view (and does not change the state at all),
while two distinct callbacks receive distinct views. -/
theorem wrap_identity_stability (κ : Nat → RawKind) (s : WrapState) (x cb1 cb2 : Nat)
    (hcan : canBeMadeReactive κ (.raw x) = true) (hskip : x ∉ s.skipped) :
    ∃ v1 s1 v2 s2,
      reactive κ s (.raw x) cb1 = .ok (v1, s1) ∧
      reactive κ s1 (.raw x) cb1 = .ok (v1, s1) ∧
      reactive κ s1 (.raw x) cb2 = .ok (v2, s2) ∧
      (cb1 ≠ cb2 → v1 ≠ v2) := by
  obtain ⟨p1, s1, h1, hsk1, _, hc1⟩ := reactive_raw_spec κ s x cb1 hcan hskip
  have hskip1 : x ∉ s1.skipped := by rw [hsk1]; exact hskip
  have h2 : reactive κ s1 (.raw x) cb1 = .ok (.view p1 x cb1, s1) := by
    unfold reactive
    simp [hcan, hskip1, hc1]
  obtain ⟨p2, s2, h3, _, _, _⟩ := reactive_raw_spec κ s1 x cb2 hcan hskip1
  refine ⟨.view p1 x cb1, s1, .view p2 x cb2, s2, h1, h2, h3, ?_⟩
  intro hne hv
  simp only [Value.view.injEq] at hv
  exact hne hv.2.2

/-- Witness for C6 at a concrete input: the empty state, target 0, callbacks 1
and 2, every raw id of kind Object. -/
theorem wrap_identity_stability_witness :
    ∃ v1 s1 v2 s2,
      reactive (fun _ => RawKind.object) WrapState.empty (.raw 0) 1 = .ok (v1, s1) ∧
      reactive (fun _ => RawKind.object) s1 (.raw 0) 1 = .ok (v1, s1) ∧
      reactive (fun _ => RawKind.object) s1 (.raw 0) 2 = .ok (v2, s2) ∧
      ((1 : Nat) ≠ 2 → v1 ≠ v2) :=
  wrap_identity_stability (fun _ => RawKind.object) WrapState.empty 0 1 2
    (by decide) (by decide)

/-- C7 counterexample: `unwrap` applied to `null` — a value that is not a View
— does not return it unchanged: the member access `value[TARGET]` faults with
a TypeError. -/
theorem unwrap_null_counterexample :
    toRaw Value.nil = Except.error "TypeError" ∧
      toRaw Value.nil ≠ Except.ok Value.nil :=
  ⟨rfl, fun h => by simp [toRaw] at h⟩

/-- C7 (amended): `unwrap(wrap(x, cb)) === x` for every wrappable, non-skipped
raw `x`; `unwrap` returns every non-view value other than `null`/`undefined`
unchanged; on `null` and `undefined` it throws a TypeError. -/
theorem unwrap_roundtrip (κ : Nat → RawKind) (s : WrapState) (x cb : Nat)
    (hcan : canBeMadeReactive κ (.raw x) = true) (hskip : x ∉ s.skipped) :
    (∃ v1 s1, reactive κ s (.raw x) cb = .ok (v1, s1) ∧ toRaw v1 = .ok (.raw x)) ∧
    (∀ n, toRaw (.prim n) = .ok (.prim n)) ∧
    (∀ b, toRaw (.bool b) = .ok (.bool b)) ∧
    (∀ i, toRaw (.fn i) = .ok (.fn i)) ∧
    (∀ i, toRaw (.raw i) = .ok (.raw i)) ∧
    toRaw .nil = .error "TypeError" ∧ toRaw .undefined = .error "TypeError" := by
  obtain ⟨p1, s1, h1, _, _, _⟩ := reactive_raw_spec κ s x cb hcan hskip
  exact ⟨⟨.view p1 x cb, s1, h1, rfl⟩,
    fun n => rfl, fun b => rfl, fun i => rfl, fun i => rfl, rfl, rfl⟩

/-- Witness for C7 (amended) at a concrete input. -/
theorem unwrap_roundtrip_witness :
    (∃ v1 s1, reactive (fun _ => RawKind.map) WrapState.empty (.raw 3) 1 = .ok (v1, s1) ∧
      toRaw v1 = .ok (.raw 3)) ∧
    (∀ n, toRaw (.prim n) = .ok (.prim n)) ∧
    (∀ b, toRaw (.bool b) = .ok (.bool b)) ∧
    (∀ i, toRaw (.fn i) = .ok (.fn i)) ∧
    (∀ i, toRaw (.raw i) = .ok (.raw i)) ∧
    toRaw .nil = .error "TypeError" ∧ toRaw .undefined = .error "TypeError" :=
  unwrap_roundtrip (fun _ => RawKind.map) WrapState.empty 3 1 (by decide) (by decide)

theorem canBeMadeReactive_view_raw (κ : Nat → RawKind) (p t c : Nat) :
    canBeMadeReactive κ (.view p t c) = canBeMadeReactive κ (.raw t) := rfl

/-- C9: `reactive` succeeds exactly on the values accepted by the capability
probe: every primitive, function, `null`/`undefined` and every raw container
of an unsupported kind (date, promise, ...) makes it throw the unwrappable
error immediately, and every supported container kind is wrapped without
throwing. -/
theorem wrap_throws_iff_probe_rejects (κ : Nat → RawKind) (s : WrapState) (cb : Nat) :
    (∀ v, (∃ r s2, reactive κ s v cb = .ok (r, s2)) ↔ canBeMadeReactive κ v = true) ∧
    (∀ v, reactive κ s v cb = .error "Cannot make the given value reactive" ↔
      canBeMadeReactive κ v = false) ∧
    (∀ id, κ id ∈ SUPPORTED_RAW_TYPES → ∃ r s2, reactive κ s (.raw id) cb = .ok (r, s2)) ∧
    (∀ id, (κ id = .date ∨ κ id = .promise ∨ κ id = .nullk ∨ κ id = .other) →
      reactive κ s (.raw id) cb = .error "Cannot make the given value reactive") := by
  have herr : ∀ (s : WrapState) (v : Value), canBeMadeReactive κ v = false →
      reactive κ s v cb = .error "Cannot make the given value reactive" := by
    intro s v h
    unfold reactive
    cases v <;> simp [h]
  have hok : ∀ (s : WrapState) (v : Value), canBeMadeReactive κ v = true →
      ∃ r s2, reactive κ s v cb = .ok (r, s2) := by
    intro s v h
    match v with
    | .raw id =>
      by_cases hskip : id ∈ s.skipped
      · exact ⟨.raw id, s, by unfold reactive; simp [h, hskip]⟩
      · obtain ⟨p, s2, hr, _, _, _⟩ := reactive_raw_spec κ s id cb h hskip
        exact ⟨_, _, hr⟩
    | .view p t c0 =>
      have hraw : canBeMadeReactive κ (.raw t) = true := h
      by_cases hskip : t ∈ s.skipped
      · refine ⟨.view p t c0,
          { s with reg := observeTargetKey t RegKey.keychanges c0 s.reg }, ?_⟩
        unfold reactive
        simp [h, hskip]
      · have hskip1 : t ∉ ({ s with reg := observeTargetKey t RegKey.keychanges c0 s.reg } : WrapState).skipped := hskip
        obtain ⟨p2, s2, hr, _, _, _⟩ := reactive_raw_spec κ _ t cb hraw hskip1
        refine ⟨.view p2 t cb, s2, ?_⟩
        unfold reactive
        simp only [h]
        simp [hskip, hr]
    | .undefined => simp [canBeMadeReactive, typeofIsObject] at h
    | .nil => simp [canBeMadeReactive, rawTypeV, SUPPORTED_RAW_TYPES] at h
    | .bool b => simp [canBeMadeReactive, typeofIsObject] at h
    | .prim n => simp [canBeMadeReactive, typeofIsObject] at h
    | .fn i => simp [canBeMadeReactive, typeofIsObject] at h
  refine ⟨?_, ?_, ?_, ?_⟩
  · intro v
    constructor
    · rintro ⟨r, s2, hr⟩
      by_contra hc
      have hf : canBeMadeReactive κ v = false := by
        cases hcv : canBeMadeReactive κ v
        · rfl
        · exact absurd hcv hc
      rw [herr s v hf] at hr
      cases hr
    · exact hok s v
  · intro v
    constructor
    · intro hr
      cases hcv : canBeMadeReactive κ v
      · rfl
      · obtain ⟨r, s2, hok2⟩ := hok s v hcv
        rw [hok2] at hr
        cases hr
    · exact herr s v
  · intro id hid
    refine hok s (.raw id) ?_
    simp [canBeMadeReactive, typeofIsObject, rawTypeV, hid]
  · intro id hid
    refine herr s (.raw id) ?_
    rcases hid with h | h | h | h <;>
      simp [canBeMadeReactive, typeofIsObject, rawTypeV, h, SUPPORTED_RAW_TYPES]

/-- Witness for C9: a date container is rejected, a set container accepted. -/
theorem wrap_throws_iff_probe_rejects_witness :
    reactive (fun id => if id = 0 then RawKind.date else RawKind.set) WrapState.empty
      (.raw 0) 1 = .error "Cannot make the given value reactive" ∧
    (∃ r s2, reactive (fun id => if id = 0 then RawKind.date else RawKind.set)
      WrapState.empty (.raw 1) 1 = .ok (r, s2)) :=
  ⟨(wrap_throws_iff_probe_rejects _ WrapState.empty 1).2.2.2 0 (Or.inl (by decide)),
   (wrap_throws_iff_probe_rejects _ WrapState.empty 1).2.2.1 1 (by decide)⟩

/-!
## Record/list interception: `basicProxyHandler.set` / `.deleteProperty`

A plain container is a record of own properties (string keys, the `length`
slot of an array singled out) plus the `Array.isArray` flag.  The traps return
the updated container and the list of `notifyReactives` calls they fired, in
order. -/

/-- A property key of a plain object or array: the `"length"` string or any
other string key. -/
inductive PKey : Type where
  | length : PKey
  | nm : Nat → PKey
deriving DecidableEq, Repr

/-- A notification fired by a basic-handler trap: `notifyReactives(target,
KEYCHANGES)` or `notifyReactives(target, key)`. -/
inductive PNote : Type where
  | keychanges : PNote
  | pkey : PKey → PNote
deriving DecidableEq, Repr

structure PlainObj : Type where
  isArr : Bool
  props : List (PKey × Value)
deriving DecidableEq, Repr

/-- `Object.prototype.hasOwnProperty.call(target, key)`. -/
def hasOwnProperty (o : PlainObj) (k : PKey) : Bool :=
  (alookup o.props k).isSome

/-- `Reflect.get(target, key)` (own properties; `undefined` when absent). -/
def reflectGet (o : PlainObj) (k : PKey) : Value :=
  (alookup o.props k).getD .undefined

/-- `Reflect.set(target, key, value)`. -/
def reflectSet (o : PlainObj) (k : PKey) (v : Value) : PlainObj :=
  { o with props := aset o.props k v }

/-- `Reflect.deleteProperty(target, key)`. -/
def reflectDeleteProperty (o : PlainObj) (k : PKey) : PlainObj :=
  { o with props := adel o.props k }

/-- `basicProxyHandler.set(target, key, value)`: record "new key" and the
original value, perform the write, then notify `KEYCHANGES` when the key is
new, and the key itself when the value changed — or unconditionally for the
`length` slot of an array. -/
def basicSetTrap (o : PlainObj) (k : PKey) (v : Value) : PlainObj × List PNote :=
  let isNewKey := ¬ hasOwnProperty o k
  let originalValue := reflectGet o k
  let o2 := reflectSet o k v
  let notes1 := if isNewKey then [PNote.keychanges] else []
  let notes2 :=
    if originalValue ≠ v ∨ (o.isArr = true ∧ k = PKey.length) then [PNote.pkey k] else []
  (o2, notes1 ++ notes2)

/-- `basicProxyHandler.deleteProperty(target, key)`: perform the removal and
always notify both `KEYCHANGES` and the key. -/
def basicDeleteTrap (o : PlainObj) (k : PKey) : PlainObj × List PNote :=
  (reflectDeleteProperty o k, [PNote.keychanges, PNote.pkey k])

/-- C3: the `set` trap performs the write; it fires `KEYCHANGES` exactly when
the key was not an own key before, and fires the key exactly when the new
value differs from the value stored immediately before the write or the
container is an array and the key is the `length` slot. -/
theorem set_trap_notification_conditions (o : PlainObj) (k : PKey) (v : Value) :
    (basicSetTrap o k v).1 = reflectSet o k v ∧
    (PNote.keychanges ∈ (basicSetTrap o k v).2 ↔ hasOwnProperty o k = false) ∧
    (PNote.pkey k ∈ (basicSetTrap o k v).2 ↔
      (reflectGet o k ≠ v ∨ (o.isArr = true ∧ k = PKey.length))) := by
  refine ⟨rfl, ?_, ?_⟩
  · by_cases hnew : hasOwnProperty o k = false
    · by_cases hval : reflectGet o k ≠ v ∨ (o.isArr = true ∧ k = PKey.length) <;>
        simp [basicSetTrap, hnew, hval]
    · have hnew2 : hasOwnProperty o k = true := by
        cases h : hasOwnProperty o k
        · exact absurd h hnew
        · rfl
      by_cases hval : reflectGet o k ≠ v ∨ (o.isArr = true ∧ k = PKey.length) <;>
        simp [basicSetTrap, hnew2, hval]
  · by_cases hnew : hasOwnProperty o k = false
    · by_cases hval : reflectGet o k ≠ v ∨ (o.isArr = true ∧ k = PKey.length) <;>
        simp [basicSetTrap, hnew, hval]
    · have hnew2 : hasOwnProperty o k = true := by
        cases h : hasOwnProperty o k
        · exact absurd h hnew
        · rfl
      by_cases hval : reflectGet o k ≠ v ∨ (o.isArr = true ∧ k = PKey.length) <;>
        simp [basicSetTrap, hnew2, hval]

/-- C4: the `deleteProperty` trap performs the removal and always fires both
`KEYCHANGES` and the key — including when the key was absent. -/
theorem delete_trap_always_notifies (o : PlainObj) (k : PKey) :
    (basicDeleteTrap o k).1 = reflectDeleteProperty o k ∧
    PNote.keychanges ∈ (basicDeleteTrap o k).2 ∧
    PNote.pkey k ∈ (basicDeleteTrap o k).2 ∧
    (basicDeleteTrap o k).2 = [PNote.keychanges, PNote.pkey k] := by
  exact ⟨rfl, by simp [basicDeleteTrap], by simp [basicDeleteTrap], rfl⟩

/-!
## Collection interception: `delegateAndNotify` and its six instantiations

Sets are lists of values, maps association lists of values; the native
methods are the JS ones.  A handler returns the updated collection and the
`notifyReactives` calls it fired, in order; it can fault because of the
`key = toRaw(key)` step. -/

/-- A notification fired by a collection handler. -/
inductive CNote : Type where
  | keychanges : CNote
  | ckey : Value → CNote
deriving DecidableEq, Repr

abbrev MapObj : Type := List (Value × Value)
abbrev SetObj : Type := List Value

def mapHas (m : MapObj) (k : Value) : Bool := (alookup m k).isSome

/-- JS `Map.prototype.get`: `undefined` when the key is absent. -/
def mapGet (m : MapObj) (k : Value) : Value := (alookup m k).getD .undefined

def setHas (st : SetObj) (k : Value) : Bool := decide (k ∈ st)

/-- `delegateAndNotify(setterName, getterName, target)` applied to
`(key, value)`: unwrap the key, capture presence and the prior value through
the paired read method, delegate to the native mutator, then notify
`KEYCHANGES` when presence changed and the key when the captured prior value
differs (strict comparison) from `value`. -/
def delegateAndNotify {C : Type} (setter : C → Value → Value → C)
    (getter : C → Value → Value) (hasM : C → Value → Bool) (target : C)
    (key value : Value) : Except String (C × List CNote) := do
  let k ← toRaw key
  let hadKey := hasM target k
  let originalValue := getter target k
  let t2 := setter target k value
  let hasKey := hasM t2 k
  let notes1 := if hadKey ≠ hasKey then [CNote.keychanges] else []
  let notes2 := if originalValue ≠ value then [CNote.ckey k] else []
  .ok (t2, notes1 ++ notes2)

/-- `set: delegateAndNotify("set", "get", target)` of the Map handlers (the
WeakMap handlers share this very instantiation). -/
def mapSetHandler (m : MapObj) (key value : Value) : Except String (MapObj × List CNote) :=
  delegateAndNotify (fun m k v => aset m k v) mapGet mapHas m key value

/-- `delete: delegateAndNotify("delete", "has", target)` of the Map handlers
(shared by the WeakMap handlers); `delete` is called with a single argument,
so `value` is `undefined`, and the paired read method is `has`, so the
captured prior value is a boolean. -/
def mapDeleteHandler (m : MapObj) (key : Value) : Except String (MapObj × List CNote) :=
  delegateAndNotify (fun m k _ => adel m k) (fun m k => Value.bool (mapHas m k))
    mapHas m key .undefined

/-- `add: delegateAndNotify("add", "has", target)` of the Set handlers,
called with a single argument. -/
def setAddHandler (st : SetObj) (key : Value) : Except String (SetObj × List CNote) :=
  delegateAndNotify (fun st k _ => sadd st k) (fun st k => Value.bool (setHas st k))
    setHas st key .undefined

/-- `delete: delegateAndNotify("delete", "has", target)` of the Set handlers,
called with a single argument. -/
def setDeleteHandler (st : SetObj) (key : Value) : Except String (SetObj × List CNote) :=
  delegateAndNotify (fun st k _ => sdel st k) (fun st k => Value.bool (setHas st k))
    setHas st key .undefined

theorem mapHas_aset (m : MapObj) (k v : Value) : mapHas (aset m k v) k = true := by
  simp [mapHas, alookup_aset]

theorem mapHas_adel (m : MapObj) (k : Value) : mapHas (adel m k) k = false := by
  simp [mapHas, alookup_adel]

theorem setHas_sadd (st : SetObj) (k : Value) : setHas (sadd st k) k = true := by
  simp [setHas, mem_sadd]

theorem setHas_sdel (st : SetObj) (k : Value) : setHas (sdel st k) k = false := by
  simp [setHas, mem_sdel]

/-- C2: every wrapped-collection mutator captures presence and the prior value
through the paired read method before delegating, then fires `KEYCHANGES`
exactly when presence changed and the key exactly when the captured prior
value differs (strict comparison) from the call's `value` argument.  For `set`
on a map (and weak map) this means: `KEYCHANGES` exactly when the key was
absent, the key exactly when the stored value changes — in particular setting
an existing key to its current value fires nothing.  For `add`/`delete` the
paired read method is `has` and `value` is `undefined`, so the key
notification always fires while `KEYCHANGES` fires exactly when presence
changed. -/
theorem collection_mutators_notify (m : MapObj) (st : SetObj) (key k0 v : Value)
    (h : toRaw key = .ok k0) :
    (∃ notes, mapSetHandler m key v = .ok (aset m k0 v, notes) ∧
      (CNote.keychanges ∈ notes ↔ mapHas m k0 = false) ∧
      (CNote.ckey k0 ∈ notes ↔ mapGet m k0 ≠ v) ∧
      (mapHas m k0 = true ∧ mapGet m k0 = v → notes = [])) ∧
    (∃ notes, mapDeleteHandler m key = .ok (adel m k0, notes) ∧
      (CNote.keychanges ∈ notes ↔ mapHas m k0 = true) ∧ CNote.ckey k0 ∈ notes) ∧
    (∃ notes, setAddHandler st key = .ok (sadd st k0, notes) ∧
      (CNote.keychanges ∈ notes ↔ setHas st k0 = false) ∧ CNote.ckey k0 ∈ notes) ∧
    (∃ notes, setDeleteHandler st key = .ok (sdel st k0, notes) ∧
      (CNote.keychanges ∈ notes ↔ setHas st k0 = true) ∧ CNote.ckey k0 ∈ notes) := by
  refine ⟨?_, ?_, ?_, ?_⟩
  · have e1 : mapSetHandler m key v = .ok (aset m k0 v,
        (if mapHas m k0 ≠ mapHas (aset m k0 v) k0 then [CNote.keychanges] else []) ++
        (if mapGet m k0 ≠ v then [CNote.ckey k0] else [])) := by
      unfold mapSetHandler delegateAndNotify
      rw [h]
      rfl
    rw [mapHas_aset] at e1
    refine ⟨_, e1, ?_, ?_, ?_⟩
    · cases hb : mapHas m k0 <;> by_cases hv2 : mapGet m k0 = v <;> simp [hb, hv2]
    · cases hb : mapHas m k0 <;> by_cases hv2 : mapGet m k0 = v <;> simp [hb, hv2]
    · rintro ⟨hb, hv2⟩
      simp [hb, hv2]
  · have e1 : mapDeleteHandler m key = .ok (adel m k0,
        (if mapHas m k0 ≠ mapHas (adel m k0) k0 then [CNote.keychanges] else []) ++
        (if Value.bool (mapHas m k0) ≠ Value.undefined then [CNote.ckey k0] else [])) := by
      unfold mapDeleteHandler delegateAndNotify
      rw [h]
      rfl
    rw [mapHas_adel] at e1
    refine ⟨_, e1, ?_, ?_⟩
    · cases hb : mapHas m k0 <;> simp [hb]
    · cases hb : mapHas m k0 <;> simp [hb]
  · have e1 : setAddHandler st key = .ok (sadd st k0,
        (if setHas st k0 ≠ setHas (sadd st k0) k0 then [CNote.keychanges] else []) ++
        (if Value.bool (setHas st k0) ≠ Value.undefined then [CNote.ckey k0] else [])) := by
      unfold setAddHandler delegateAndNotify
      rw [h]
      rfl
    rw [setHas_sadd] at e1
    refine ⟨_, e1, ?_, ?_⟩
    · cases hb : setHas st k0 <;> simp [hb]
    · cases hb : setHas st k0 <;> simp [hb]
  · have e1 : setDeleteHandler st key = .ok (sdel st k0,
        (if setHas st k0 ≠ setHas (sdel st k0) k0 then [CNote.keychanges] else []) ++
        (if Value.bool (setHas st k0) ≠ Value.undefined then [CNote.ckey k0] else [])) := by
      unfold setDeleteHandler delegateAndNotify
      rw [h]
      rfl
    rw [setHas_sdel] at e1
    refine ⟨_, e1, ?_, ?_⟩
    · cases hb : setHas st k0 <;> simp [hb]
    · cases hb : setHas st k0 <;> simp [hb]

/-- Witness for C2: the empty map and set, raw key `prim 1`, value `prim 2`. -/
theorem collection_mutators_notify_witness :
    (∃ notes, mapSetHandler [] (.prim 1) (.prim 2) = .ok (aset [] (.prim 1) (.prim 2), notes) ∧
      (CNote.keychanges ∈ notes ↔ mapHas [] (.prim 1) = false) ∧
      (CNote.ckey (.prim 1) ∈ notes ↔ mapGet [] (.prim 1) ≠ .prim 2) ∧
      (mapHas [] (.prim 1) = true ∧ mapGet [] (.prim 1) = .prim 2 → notes = [])) ∧
    (∃ notes, mapDeleteHandler [] (.prim 1) = .ok (adel [] (.prim 1), notes) ∧
      (CNote.keychanges ∈ notes ↔ mapHas [] (.prim 1) = true) ∧ CNote.ckey (.prim 1) ∈ notes) ∧
    (∃ notes, setAddHandler [] (.prim 1) = .ok (sadd [] (.prim 1), notes) ∧
      (CNote.keychanges ∈ notes ↔ setHas [] (.prim 1) = false) ∧ CNote.ckey (.prim 1) ∈ notes) ∧
    (∃ notes, setDeleteHandler [] (.prim 1) = .ok (sdel [] (.prim 1), notes) ∧
      (CNote.keychanges ∈ notes ↔ setHas [] (.prim 1) = true) ∧ CNote.ckey (.prim 1) ∈ notes) :=
  collection_mutators_notify [] [] (.prim 1) (.prim 1) (.prim 2) rfl

/-!
## Batching combinator (`batched`)

The cooperative (microtask) queue is explicit.  Calling the batched function
synchronously only appends its post-`await` continuation to the queue.
Running a continuation when `called` is false sets the flag, appends the reset
microtask (`Promise.resolve().then(() => called = false)`) to the queue before
invoking the callback, and invokes the callback; when `called` is already true
the continuation falls through.  The reset microtask clears the flag. -/

inductive BTask : Type where
  | cont : BTask
  | reset : BTask
deriving DecidableEq, Repr

/-- The closure state of one `batched(callback)` instance — the `called` flag
— together with the number of `callback()` invocations performed so far. -/
structure BState : Type where
  called : Bool
  runs : Nat
deriving DecidableEq, Repr

/-- The synchronous part of one call to the batched function: control suspends
at `await Promise.resolve()`, so the only synchronous effect is enqueueing the
continuation. -/
def triggerCall (p : BState × List BTask) : BState × List BTask :=
  (p.1, p.2 ++ [BTask.cont])

/-- Termination measure for draining the queue: a continuation may enqueue one
reset task, a reset task enqueues nothing. -/
def contWeight : List BTask → Nat
  | [] => 0
  | BTask.cont :: rest => 3 + contWeight rest
  | BTask.reset :: rest => 1 + contWeight rest

theorem contWeight_append_reset (l : List BTask) :
    contWeight (l ++ [BTask.reset]) = contWeight l + 1 := by
  induction l with
  | nil => simp [contWeight]
  | cons t rest ih => cases t <;> simp [contWeight, ih] <;> omega

/-- Drain the microtask queue (front to back, as the host scheduler does). -/
def runTasks : List BTask → BState → BState
  | [], s => s
  | BTask.cont :: rest, s =>
    if s.called then runTasks rest s
    else runTasks (rest ++ [BTask.reset]) ⟨true, s.runs + 1⟩
  | BTask.reset :: rest, s => runTasks rest ⟨false, s.runs⟩
termination_by l _ => contWeight l
decreasing_by
  all_goals simp [contWeight, contWeight_append_reset]
  all_goals omega

theorem runTasks_skip (n : Nat) (r : Nat) :
    runTasks (List.replicate n BTask.cont ++ [BTask.reset]) ⟨true, r⟩ = ⟨false, r⟩ := by
  induction n with
  | zero => simp [runTasks]
  | succ k ih => simpa [List.replicate_succ, runTasks] using ih

/-- Draining a queue of `n ≥ 1` continuations from an idle state runs the
callback exactly once and leaves the flag reset. -/
theorem runTasks_batch (n r : Nat) (h : 1 ≤ n) :
    runTasks (List.replicate n BTask.cont) ⟨false, r⟩ = ⟨false, r + 1⟩ := by
  obtain ⟨k, rfl⟩ : ∃ k, n = k + 1 := ⟨n - 1, by omega⟩
  simp only [List.replicate_succ, runTasks]
  simpa using runTasks_skip k (r + 1)

theorem triggerCall_iterate (n : Nat) (s : BState) :
    ∀ q : List BTask, (triggerCall^[n]) (s, q) = (s, q ++ List.replicate n BTask.cont) := by
  induction n with
  | zero => intro q; simp
  | succ k ih =>
    intro q
    rw [Function.iterate_succ_apply]
    simpa [triggerCall, List.replicate_succ] using ih (q ++ [BTask.cont])

/-- C5: N ≥ 1 synchronous calls of the trigger returned by `batched(callback)`
never run the callback synchronously (a call only enqueues its continuation);
draining the microtask queue invokes the callback exactly once and, through
the second deferred step, resets the `called` flag; a later batch of M ≥ 1
triggers can then invoke the callback exactly once more. -/
theorem batched_once_per_tick (n m r : Nat) (hn : 1 ≤ n) (hm : 1 ≤ m) :
    (∀ (s : BState) (q : List BTask), (triggerCall (s, q)).1 = s) ∧
    (triggerCall^[n]) (⟨false, r⟩, []) = (⟨false, r⟩, List.replicate n BTask.cont) ∧
    runTasks (List.replicate n BTask.cont) ⟨false, r⟩ = ⟨false, r + 1⟩ ∧
    runTasks (List.replicate m BTask.cont)
      (runTasks (List.replicate n BTask.cont) ⟨false, r⟩) = ⟨false, r + 2⟩ := by
  refine ⟨fun s q => rfl, by simpa using triggerCall_iterate n ⟨false, r⟩ [],
    runTasks_batch n r hn, ?_⟩
  rw [runTasks_batch n r hn, runTasks_batch m (r + 1) hm]

/-- Witness for C5: three triggers in the first tick, one in the next. -/
theorem batched_once_per_tick_witness :
    (∀ (s : BState) (q : List BTask), (triggerCall (s, q)).1 = s) ∧
    (triggerCall^[3]) (⟨false, 0⟩, []) = (⟨false, 0⟩, List.replicate 3 BTask.cont) ∧
    runTasks (List.replicate 3 BTask.cont) ⟨false, 0⟩ = ⟨false, 1⟩ ∧
    runTasks (List.replicate 1 BTask.cont)
      (runTasks (List.replicate 3 BTask.cont) ⟨false, 0⟩) = ⟨false, 2⟩ :=
  batched_once_per_tick 3 1 0 (by decide) (by decide)

/-!
## Operational model for the opacity escape hatch (`markRaw`)

Registry entries keyed on a target are created only by `observeTargetKey`
calls issued from traps of a view of that target, and views are created only
by `reactive`.  The operations below are the entry-creating surface of the
engine: `wrapOp x cb` is `reactive(x, cb)`; `readProp x cb k` is a property
read through the cached view of `(x, cb)` when that view exists (the basic
`get` trap: observe, then `possiblyReactive` on the read value); `markRawOp`
sets the skip flag.  Heap contents are a fixed `heap : Nat → Nat → Value`. -/

inductive Op : Type where
  | wrapOp : Nat → Nat → Op
  | markRawOp : Nat → Op
  | readProp : Nat → Nat → Nat → Op
deriving DecidableEq, Repr

/-- The underlying target of a view, if the value is one. -/
def viewTarget : Value → Option Nat
  | .view _ t _ => some t
  | _ => none

/-- The basic `get` trap of the view of `(x, cb)` reading key `k`:
`observeTargetKey(target, key, callback)`, then `possiblyReactive` of the read
value under the same callback. -/
def getTrap (κ : Nat → RawKind) (heap : Nat → Nat → Value) (s : WrapState)
    (x cb k : Nat) : WrapState :=
  let s1 := { s with reg := observeTargetKey x (RegKey.nk k) cb s.reg }
  if canBeMadeReactive κ (heap x k) = true then
    match reactive κ s1 (heap x k) cb with
    | .ok (_, s2) => s2
    | .error _ => s1
  else s1

def step (κ : Nat → RawKind) (heap : Nat → Nat → Value) (s : WrapState) : Op → WrapState
  | .wrapOp x cb =>
    match reactive κ s (.raw x) cb with
    | .ok (_, s2) => s2
    | .error _ => s
  | .markRawOp x => markRaw s x
  | .readProp x cb k =>
    if (alookup ((alookup s.cache x).getD []) cb).isSome then getTrap κ heap s x cb k
    else s

def runOps (κ : Nat → RawKind) (heap : Nat → Nat → Value) (ops : List Op)
    (s : WrapState) : WrapState :=
  ops.foldl (step κ heap) s

/-- No trace of `x` anywhere: no registry entry keyed on `x`, no reverse-index
entry containing `x`, and no cached view of `x`. -/
def xFree (s : WrapState) (x : Nat) : Prop :=
  alookup s.reg.tkc x = none ∧ (∀ e ∈ s.reg.ctt, x ∉ e.2) ∧
    (alookup s.cache x).getD [] = []

theorem alookup_mem {α β : Type} [DecidableEq α] (l : List (α × β)) (a : α) (b : β) :
    alookup l a = some b → (a, b) ∈ l := by
  induction l with
  | nil => intro h; simp [alookup] at h
  | cons p rest ih =>
    intro h
    obtain ⟨pa, pb⟩ := p
    by_cases hp : pa = a
    · subst hp
      simp only [alookup, eq_self_iff_true, if_true, Option.some.injEq] at h
      subst h
      exact List.mem_cons_self _ _
    · simp only [alookup, if_neg hp] at h
      exact List.mem_cons_of_mem _ (ih h)

theorem xFree_observe (x t : Nat) (k : RegKey) (cb : Nat) (s : RegState)
    (ht : t ≠ x) (h1 : alookup s.tkc x = none) (h2 : ∀ e ∈ s.ctt, x ∉ e.2) :
    alookup (observeTargetKey t k cb s).tkc x = none ∧
      (∀ e ∈ (observeTargetKey t k cb s).ctt, x ∉ e.2) := by
  constructor
  · unfold observeTargetKey
    simpa [alookup_aset, show ¬ x = t from fun hh => ht hh.symm] using h1
  · intro e he
    unfold observeTargetKey at he
    rcases mem_aset _ _ _ _ he with rfl | he2
    · intro hx
      rcases (mem_sadd _ _ _).mp hx with hx2 | rfl
      · cases hl : alookup s.ctt cb with
        | none => rw [hl] at hx2; simp at hx2
        | some l =>
          rw [hl] at hx2
          exact h2 (cb, l) (alookup_mem s.ctt cb l hl) (by simpa using hx2)
      · exact ht rfl
    · exact h2 e he2

theorem reactive_raw_hit (κ : Nat → RawKind) (s : WrapState) (x cb pid : Nat)
    (hcan : canBeMadeReactive κ (.raw x) = true) (hskip : x ∉ s.skipped)
    (hc : alookup ((alookup s.cache x).getD []) cb = some pid) :
    reactive κ s (.raw x) cb = .ok (.view pid x cb, s) := by
  unfold reactive
  simp [hcan, hskip, hc]

theorem reactive_raw_miss (κ : Nat → RawKind) (s : WrapState) (x cb : Nat)
    (hcan : canBeMadeReactive κ (.raw x) = true) (hskip : x ∉ s.skipped)
    (hc : alookup ((alookup s.cache x).getD []) cb = none) :
    reactive κ s (.raw x) cb = .ok (.view s.nextPid x cb,
      { s with cache := aset s.cache x (aset ((alookup s.cache x).getD []) cb s.nextPid)
               nextPid := s.nextPid + 1 }) := by
  unfold reactive
  simp [hcan, hskip, hc]

theorem reactive_raw_skip (κ : Nat → RawKind) (s : WrapState) (x cb : Nat)
    (hcan : canBeMadeReactive κ (.raw x) = true) (hskip : x ∈ s.skipped) :
    reactive κ s (.raw x) cb = .ok (.raw x, s) := by
  unfold reactive
  simp [hcan, hskip]

/-- `reactive` on a raw target preserves skippedness of `x` and freedom of `x`
(the skip branch prevents any trace of a skipped `x`; other targets only touch
their own entries). -/
theorem reactive_raw_preserves (κ : Nat → RawKind) (x t cb : Nat) (s : WrapState)
    (r : Value) (s2 : WrapState) (hsk : x ∈ s.skipped) (hfree : xFree s x)
    (hr : reactive κ s (.raw t) cb = .ok (r, s2)) :
    x ∈ s2.skipped ∧ xFree s2 x := by
  obtain ⟨hf1, hf2, hf3⟩ := hfree
  cases hcan : canBeMadeReactive κ (.raw t) with
  | false =>
    rw [show reactive κ s (.raw t) cb = .error "Cannot make the given value reactive" by
      unfold reactive; simp [hcan]] at hr
    cases hr
  | true =>
    by_cases hskt : t ∈ s.skipped
    · rw [reactive_raw_skip κ s t cb hcan hskt] at hr
      obtain ⟨-, rfl⟩ : r = .raw t ∧ s2 = s := by
        constructor <;> [exact (by cases hr; rfl); exact (by cases hr; rfl)]
      exact ⟨hsk, hf1, hf2, hf3⟩
    · have htx : t ≠ x := fun hh => hskt (hh ▸ hsk)
      cases hc : alookup ((alookup s.cache t).getD []) cb with
      | some pid =>
        rw [reactive_raw_hit κ s t cb pid hcan hskt hc] at hr
        obtain ⟨-, rfl⟩ : r = .view pid t cb ∧ s2 = s := by
          constructor <;> [exact (by cases hr; rfl); exact (by cases hr; rfl)]
        exact ⟨hsk, hf1, hf2, hf3⟩
      | none =>
        rw [reactive_raw_miss κ s t cb hcan hskt hc] at hr
        have hs2 : s2 =
            { s with cache := aset s.cache t (aset ((alookup s.cache t).getD []) cb s.nextPid)
                     nextPid := s.nextPid + 1 } := by
          cases hr; rfl
        subst hs2
        refine ⟨hsk, hf1, hf2, ?_⟩
        simpa [alookup_aset, show ¬ x = t from fun hh => htx hh.symm] using hf3

/-- `reactive` on any value that is not a view of `x` preserves the invariant. -/
theorem reactive_preserves (κ : Nat → RawKind) (x cb : Nat) (s : WrapState)
    (v : Value) (r : Value) (s2 : WrapState) (hsk : x ∈ s.skipped)
    (hfree : xFree s x) (hv : viewTarget v ≠ some x)
    (hr : reactive κ s v cb = .ok (r, s2)) :
    x ∈ s2.skipped ∧ xFree s2 x := by
  obtain ⟨hf1, hf2, hf3⟩ := hfree
  match v with
  | .raw t => exact reactive_raw_preserves κ x t cb s r s2 hsk ⟨hf1, hf2, hf3⟩ hr
  | .view p t c0 =>
    have htx : t ≠ x := fun hh => hv (by simp [viewTarget, hh])
    cases hcan : canBeMadeReactive κ (.view p t c0) with
    | false =>
      rw [show reactive κ s (.view p t c0) cb = .error "Cannot make the given value reactive" by
        unfold reactive; simp [hcan]] at hr
      cases hr
    | true =>
      have hobs := xFree_observe x t RegKey.keychanges c0 s.reg htx hf1 hf2
      by_cases hskt : t ∈ s.skipped
      · rw [show reactive κ s (.view p t c0) cb = .ok (.view p t c0,
            { s with reg := observeTargetKey t RegKey.keychanges c0 s.reg }) by
          unfold reactive; simp [hcan, hskt]] at hr
        have hs2 : s2 = { s with reg := observeTargetKey t RegKey.keychanges c0 s.reg } := by
          cases hr; rfl
        subst hs2
        exact ⟨hsk, hobs.1, hobs.2, hf3⟩
      · have hstep : reactive κ s (.view p t c0) cb =
            reactive κ { s with reg := observeTargetKey t RegKey.keychanges c0 s.reg }
              (.raw t) cb := by
          conv_lhs => unfold reactive
          simp [hcan, hskt]
        rw [hstep] at hr
        exact reactive_raw_preserves κ x t cb
          { s with reg := observeTargetKey t RegKey.keychanges c0 s.reg } r s2 hsk
          ⟨hobs.1, hobs.2, hf3⟩ hr
  | .undefined =>
    rw [show reactive κ s .undefined cb = .error "Cannot make the given value reactive" by
      unfold reactive; cases hcan : canBeMadeReactive κ Value.undefined <;> simp [hcan]] at hr
    cases hr
  | .nil =>
    rw [show reactive κ s .nil cb = .error "Cannot make the given value reactive" by
      unfold reactive; cases hcan : canBeMadeReactive κ Value.nil <;> simp [hcan]] at hr
    cases hr
  | .bool b =>
    rw [show reactive κ s (.bool b) cb = .error "Cannot make the given value reactive" by
      unfold reactive; cases hcan : canBeMadeReactive κ (Value.bool b) <;> simp [hcan]] at hr
    cases hr
  | .prim n =>
    rw [show reactive κ s (.prim n) cb = .error "Cannot make the given value reactive" by
      unfold reactive; cases hcan : canBeMadeReactive κ (Value.prim n) <;> simp [hcan]] at hr
    cases hr
  | .fn i =>
    rw [show reactive κ s (.fn i) cb = .error "Cannot make the given value reactive" by
      unfold reactive; cases hcan : canBeMadeReactive κ (Value.fn i) <;> simp [hcan]] at hr
    cases hr

theorem step_preserves (κ : Nat → RawKind) (heap : Nat → Nat → Value) (x : Nat)
    (hheap : ∀ y k, viewTarget (heap y k) ≠ some x) (s : WrapState)
    (hsk : x ∈ s.skipped) (hfree : xFree s x) (op : Op) :
    x ∈ (step κ heap s op).skipped ∧ xFree (step κ heap s op) x := by
  obtain ⟨hf1, hf2, hf3⟩ := hfree
  match op with
  | .wrapOp y cb =>
    simp only [step]
    cases hr : reactive κ s (.raw y) cb with
    | ok p =>
      obtain ⟨r0, s4⟩ := p
      exact reactive_raw_preserves κ x y cb s r0 s4 hsk ⟨hf1, hf2, hf3⟩ hr
    | error e => exact ⟨hsk, hf1, hf2, hf3⟩
  | .markRawOp y =>
    simp only [step]
    exact ⟨(mem_sadd _ _ _).mpr (Or.inl hsk), hf1, hf2, hf3⟩
  | .readProp y cb k =>
    simp only [step]
    by_cases hcond : (alookup ((alookup s.cache y).getD []) cb).isSome = true
    · have hyx : y ≠ x := by
        intro hh
        subst hh
        rw [hf3] at hcond
        simp [alookup] at hcond
      rw [if_pos hcond]
      simp only [getTrap]
      have hobs := xFree_observe x y (RegKey.nk k) cb s.reg hyx hf1 hf2
      by_cases hcanv : canBeMadeReactive κ (heap y k) = true
      · rw [if_pos hcanv]
        cases hr : reactive κ { s with reg := observeTargetKey y (RegKey.nk k) cb s.reg }
            (heap y k) cb with
        | ok p =>
          obtain ⟨r0, s4⟩ := p
          exact reactive_preserves κ x cb
            { s with reg := observeTargetKey y (RegKey.nk k) cb s.reg } (heap y k) r0 s4
            hsk ⟨hobs.1, hobs.2, hf3⟩ (hheap y k) hr
        | error e => exact ⟨hsk, hobs.1, hobs.2, hf3⟩
      · rw [if_neg hcanv]
        exact ⟨hsk, hobs.1, hobs.2, hf3⟩
    · rw [if_neg hcond]
      exact ⟨hsk, hf1, hf2, hf3⟩

theorem runOps_preserves (κ : Nat → RawKind) (heap : Nat → Nat → Value) (x : Nat)
    (hheap : ∀ y k, viewTarget (heap y k) ≠ some x) (ops : List Op) :
    ∀ s : WrapState, x ∈ s.skipped → xFree s x →
      x ∈ (runOps κ heap ops s).skipped ∧ xFree (runOps κ heap ops s) x := by
  induction ops with
  | nil => intro s h1 h2; exact ⟨h1, h2⟩
  | cons op rest ih =>
    intro s h1 h2
    have hstep := step_preserves κ heap x hheap s h1 h2 op
    exact ih (step κ heap s op) hstep.1 hstep.2

/-- C8 counterexample: target 5 is wrapped for callback 7, *then* marked with
`markRaw`, and a later property read through the pre-existing view creates a
registry entry keyed on 5 — an operation after the marking does create a
registry entry for the marked value. -/
theorem markRaw_opacity_counterexample :
    alookup (runOps (fun _ => RawKind.object) (fun _ _ => Value.undefined)
      [Op.wrapOp 5 7, Op.markRawOp 5, Op.readProp 5 7 3] WrapState.empty).reg.tkc 5 ≠
      none := by
  have h1 : step (fun _ => RawKind.object) (fun _ _ => Value.undefined) WrapState.empty
      (Op.wrapOp 5 7) =
      { WrapState.empty with cache := [(5, [(7, 0)])], nextPid := 1 } := by
    simp only [step]
    rw [reactive_raw_miss (fun _ => RawKind.object) WrapState.empty 5 7
      (by decide) (by decide) rfl]
    rfl
  have hall : runOps (fun _ => RawKind.object) (fun _ _ => Value.undefined)
      [Op.wrapOp 5 7, Op.markRawOp 5, Op.readProp 5 7 3] WrapState.empty =
      step (fun _ => RawKind.object) (fun _ _ => Value.undefined)
        (step (fun _ => RawKind.object) (fun _ _ => Value.undefined)
          { WrapState.empty with cache := [(5, [(7, 0)])], nextPid := 1 }
          (Op.markRawOp 5))
        (Op.readProp 5 7 3) := by
    simp only [runOps, List.foldl]
    rw [h1]
  rw [hall]
  decide

/-- C8 (amended): `markRaw` shields a value from the wrapper and, provided no
view of it existed when it was marked (and none is reachable from the heap),
from the registry: after any sequence of operations the value is still
skipped, still has no registry entry and no cached view, and wrapping it still
returns the value itself with the state unchanged.  A view created *before*
the marking, however, still produces registry entries keyed on the value (see
the counterexample). -/
theorem markRaw_opacity (κ : Nat → RawKind) (heap : Nat → Nat → Value)
    (ops : List Op) (s : WrapState) (x : Nat)
    (hcan : canBeMadeReactive κ (.raw x) = true)
    (hsk : x ∈ s.skipped) (hfree : xFree s x)
    (hheap : ∀ y k, viewTarget (heap y k) ≠ some x) :
    x ∈ (runOps κ heap ops s).skipped ∧ xFree (runOps κ heap ops s) x ∧
      (∀ cb, reactive κ (runOps κ heap ops s) (.raw x) cb =
        .ok (.raw x, runOps κ heap ops s)) := by
  obtain ⟨h1, h2⟩ := runOps_preserves κ heap x hheap ops s hsk hfree
  exact ⟨h1, h2, fun cb => reactive_raw_skip κ _ x cb hcan h1⟩

/-- Witness for C8 (amended): value 5 marked in the initial state; a wrap of 6
and a read through 6's view leave 5 untouched, and wrapping 5 returns it. -/
theorem markRaw_opacity_witness :
    5 ∈ (runOps (fun _ => RawKind.object) (fun _ _ => Value.undefined)
      [Op.wrapOp 6 7, Op.readProp 6 7 3] (markRaw WrapState.empty 5)).skipped ∧
    xFree (runOps (fun _ => RawKind.object) (fun _ _ => Value.undefined)
      [Op.wrapOp 6 7, Op.readProp 6 7 3] (markRaw WrapState.empty 5)) 5 ∧
    (∀ cb, reactive (fun _ => RawKind.object)
      (runOps (fun _ => RawKind.object) (fun _ _ => Value.undefined)
        [Op.wrapOp 6 7, Op.readProp 6 7 3] (markRaw WrapState.empty 5)) (.raw 5) cb =
      .ok (.raw 5, runOps (fun _ => RawKind.object) (fun _ _ => Value.undefined)
        [Op.wrapOp 6 7, Op.readProp 6 7 3] (markRaw WrapState.empty 5))) :=
  markRaw_opacity (fun _ => RawKind.object) (fun _ _ => Value.undefined)
    [Op.wrapOp 6 7, Op.readProp 6 7 3] (markRaw WrapState.empty 5) 5
    (by decide) (by decide)
    ⟨by decide, by intro e he; simp [markRaw, WrapState.empty, RegState.empty, sadd] at he,
     by decide⟩
    (fun y k => by simp [viewTarget])

end Owl
